import Mathlib

/-!
Verification of the 0x coordinator server's approval engine
(`src/ts/src/production_configs.ts`, current `Handlers` revision).

Machine integers: the source computes over `BigNumber` (unbounded signed
decimal arithmetic); amounts, addresses and timestamps are modelled as `Nat`,
and quantities that the source can drive negative (via `minus`) as `Int`.
Digests (order hash, transaction hash, EIP-712 approval digest) are
deterministic injective functions of their pre-images computed by external
libraries; they are modelled as identity injections, since no claim
depends on the byte representation of a digest.

The persistence layer (`orderModel`, `transactionModel`) is not under `src/`;
its operations are modelled from the spec (see the doc comments on the
corresponding definitions).
-/

deriving instance DecidableEq for Except

namespace Coordinator

/-- A 0x limit order, as decoded from calldata and decorated by the handler
(`Order` of `@0x/types`; only the fields the handlers read are modelled).
Addresses are modelled as `Nat`, the null address as `0`. -/
structure Order where
  makerAddress : Nat
  takerAddress : Nat
  feeRecipientAddress : Nat
  makerAssetAmount : Nat
  takerAssetAmount : Nat
  makerFee : Nat
  takerFee : Nat
  expirationTimeSeconds : Nat
  salt : Nat
deriving DecidableEq

/-- A signed 0x meta-transaction envelope (`ZeroExTransaction`); the ABI-encoded
`data` is decoded externally, so the handlers below receive the decoded
orders/amounts separately. -/
structure ZeroExTransaction where
  signerAddress : Nat
  expirationTimeSeconds : Nat
  salt : Nat
deriving DecidableEq

/-- `orderHashUtils.getOrderHashHex` / `orderModel.getHash`: the order digest,
modelled as the identity injection. -/
def getOrderHashHex (o : Order) : Order := o

/-- `transactionHashUtils.getTransactionHashHex`: the transaction digest,
modelled as the identity injection. -/
def getTransactionHashHex (tx : ZeroExTransaction) : ZeroExTransaction := tx

/-- The EIP-712 `CoordinatorApproval` typed-data digest
(`sigUtil.TypedDataUtils.sign` over domain name `0x Protocol Coordinator`,
version `3.0.0`): modelled as the injective tuple of its pre-image fields. -/
structure ApprovalDigest where
  zeroxOrderHashes : List Order
  txOrigin : Nat
  approvalExpirationTimeSeconds : Nat
  chainId : Nat
  verifyingContract : Nat
deriving DecidableEq

/-- `ethUtil.ecsign(digest, privateKey)` followed by the 66-byte encoding:
modelled as the pair of the digest and the signing key (recovery yields the
address whose configured private key equals `signingKey`). -/
structure ApprovalSig where
  digest : ApprovalDigest
  signingKey : Nat
deriving DecidableEq

/-- The subset of `Configs` the fill/cancel handlers read.
`feeRecipients` holds `(ADDRESS, PRIVATE_KEY)` pairs, as in
`CHAIN_ID_TO_SETTINGS[chainId].FEE_RECIPIENTS`. -/
structure Configs where
  selectiveDelayMs : Nat
  expirationDurationSeconds : Nat
  feeRecipients : List (Nat × Nat)
  coordinatorContractAddress : Nat
  chainId : Nat
deriving DecidableEq

/-- A `SeenTransactions` row, as persisted by `transactionModel.createAsync`. -/
structure TransactionRecord where
  txOrigin : Nat
  signatures : List ApprovalSig
  expirationTimeSeconds : Nat
  signerAddress : Nat
  orders : List Order
  fillAmounts : List Nat
deriving DecidableEq

/-- The repository state (spec §3): the soft-cancel set, the per-(orderHash,
takerAddress) fill ledger, and the dedup ledger of seen transactions. -/
structure CoordinatorState where
  softCancels : List Order
  fillLedger : List ((Order × Nat) × Nat)
  seenTxs : List (ZeroExTransaction × TransactionRecord)
deriving DecidableEq

/-- Modelled from the spec: `transactionModel.findByHashAsync` — look up the
`SeenTransactions` row for a transaction hash (first matching row). -/
def findTx : List (ZeroExTransaction × TransactionRecord) → ZeroExTransaction →
    Option TransactionRecord
  | [], _ => none
  | (h, r) :: rest, k => if h = k then some r else findTx rest k

/-- Modelled from the spec: `transactionModel.getOrderHashToFillAmountRequestedAsync`
— the cumulative requested taker-asset amount for `(orderHash, takerAddress)`;
an absent key reads as `0`. -/
def ledgerLookup : List ((Order × Nat) × Nat) → Order → Nat → Nat
  | [], _, _ => 0
  | (k, v) :: rest, h, t => if k = (h, t) then v else ledgerLookup rest h t

/-- Modelled from the spec: a single fill-ledger credit — ledger entries are
created on fill approval and never decremented (spec §3, Lifecycle). -/
def ledgerAdd : List ((Order × Nat) × Nat) → (Order × Nat) → Nat →
    List ((Order × Nat) × Nat)
  | [], k, a => [(k, a)]
  | (k', v) :: rest, k, a =>
    if k' = k then (k', v + a) :: rest else (k', v) :: ledgerAdd rest k a

/-- Modelled from the spec: `transactionModel.createAsync` — inserts the
`SeenTransactions` row and credits the fill ledger at `(orderHash,
signerAddress)` for each persisted order/amount pair, pairing the persisted
orders with the persisted fill amounts positionally. -/
def createAsync (st : CoordinatorState) (tx : ZeroExTransaction)
    (rec : TransactionRecord) : CoordinatorState :=
  { st with
    seenTxs := (getTransactionHashHex tx, rec) :: st.seenTxs
    fillLedger :=
      (((rec.orders.map getOrderHashHex).zip rec.fillAmounts).foldl
        (fun acc p => ledgerAdd acc (p.1, rec.signerAddress) p.2) st.fillLedger) }

/-- Modelled from the spec: `orderModel.cancelAsync` — adds the order's hash to
the grow-only `SoftCancels` set. -/
def cancelAsync (st : CoordinatorState) (o : Order) : CoordinatorState :=
  { st with softCancels := st.softCancels ++ [getOrderHashHex o] }

/-- Modelled from the spec: `orderModel.findSoftCancelledOrdersAsync` — the
hashes of the given orders that are present in the soft-cancel set. -/
def softCancelledOrderHashes (st : CoordinatorState) (coordinatorOrders : List Order) :
    List Order :=
  (coordinatorOrders.filter
    (fun o => decide (getOrderHashHex o ∈ st.softCancels))).map getOrderHashHex

/-- Modelled from the spec: `transactionModel.getOutstandingFillSignaturessByOrdersAsync`
— the approval signatures of every seen transaction touching one of the given
orders (spec §3, `FillApprovals`). -/
def getOutstandingFillSignatures (st : CoordinatorState) (coordinatorOrders : List Order) :
    List ApprovalSig :=
  ((st.seenTxs.filter
      (fun p => p.2.orders.any (fun o => decide (o ∈ coordinatorOrders)))).map
    (fun p => p.2.signatures)).flatten

/-- Error codes of `ValidationErrorCodes` plus the internal
missing-fee-recipient error. -/
inductive ErrCode where
  | IncludedOrderAlreadySoftCancelled
  | FillRequestsExceededTakerAssetAmount
  | ZeroExTransactionDecodingFailed
  | NoCoordinatorOrdersIncluded
  | TransactionAlreadyUsed
  | OnlyMakerCanCancelOrders
  | TransactionExpirationTooHigh
  | InvalidFunctionCall
  | InternalError
deriving DecidableEq

/-- An HTTP-surfaced failure. Every `ValidationError` is surfaced as status 400
and the missing-key internal error as 500 (spec §7). -/
structure HttpError where
  status : Nat
  code : ErrCode
deriving DecidableEq

/-- `new BigNumber(Date.now()).div(ONE_SECOND_MS).dp(0, 6)`: milliseconds to
seconds, rounded to the nearest integer with ties to even
(`BigNumber.ROUND_HALF_EVEN = 6`). -/
def halfEvenSeconds (nowMs : Nat) : Nat :=
  let q := nowMs / 1000
  let r := nowMs % 1000
  if r < 500 then q
  else if 500 < r then q + 1
  else if q % 2 = 0 then q else q + 1

/-- `orderCalculationUtils.getTakerFillAmount`:
`floor(makerFillAmount * takerAssetAmount / makerAssetAmount)`. -/
def getTakerFillAmount (o : Order) (makerFillAmount : Int) : Int :=
  makerFillAmount * (o.takerAssetAmount : Int) / (o.makerAssetAmount : Int)

/-- `BigNumber.min(...minSet)` over a list built by successive pushes: the
minimum of a nonempty list (the empty case is unreachable in the source). -/
def bigMin : List Int → Int
  | [] => 0
  | x :: xs => xs.foldl min x

/-- `traderInfo` as assembled by `_getBatchOrderAndTraderInfoAsync` from the
chain oracle, plus `orderInfo.orderTakerAssetFilledAmount`. -/
structure TraderInfo where
  makerBalance : Nat
  makerAllowance : Nat
  makerFeeBalance : Nat
  makerFeeAllowance : Nat
  takerBalance : Nat
  takerAllowance : Nat
  takerFeeBalance : Nat
  takerFeeAllowance : Nat
deriving DecidableEq

/-- `orderInfo`: the on-chain order state read by the oracle. -/
structure OrderInfo where
  orderTakerAssetFilledAmount : Nat
deriving DecidableEq

/-- `Handlers._calculateRemainingFillableTakerAssetAmount`: the `minSet` is
built in source push order (taker asset constraint when `takerAddress` is not
null; maker asset constraint; taker fee constraint when `takerFee ≠ 0`; maker
fee constraint when `makerFee ≠ 0`; remaining unfilled amount), then
`BigNumber.min` is taken. -/
def calculateRemainingFillableTakerAssetAmount (o : Order) (oi : OrderInfo)
    (ti : TraderInfo) : Int :=
  let minSet : List Int :=
    (if o.takerAddress ≠ 0 then [((min ti.takerBalance ti.takerAllowance : Nat) : Int)]
     else [])
    ++ [getTakerFillAmount o ((min ti.makerBalance ti.makerAllowance : Nat) : Int)]
    ++ (if o.takerFee ≠ 0 then
          [((min ti.takerFeeBalance ti.takerFeeAllowance : Nat) : Int) *
              (o.takerAssetAmount : Int) / (o.takerFee : Int)]
        else [])
    ++ (if o.makerFee ≠ 0 then
          [((min ti.makerFeeBalance ti.makerFeeAllowance : Nat) : Int) *
              (o.takerAssetAmount : Int) / (o.makerFee : Int)]
        else [])
    ++ [(o.takerAssetAmount : Int) - (oi.orderTakerAssetFilledAmount : Int)]
  bigMin minSet

/-- The market-sell fill-amount derivation of
`_extractTakerAssetFillAmountsFromMarketSellOrdersAsync`: walk the orders in
calldata order; each fill is the running total if it is strictly below the
order's remaining fillable cap, else the cap; the running total decreases by
the fill. -/
def deriveMarketSellFills (total : Int) : List Int → List Int
  | [] => []
  | cap :: caps =>
    let fill := if total < cap then total else cap
    fill :: deriveMarketSellFills (total - fill) caps

/-- The non-soft-cancelled sublist of the request's orders, in calldata order
(`availableCoordinatorOrders` of `_validateOrdersAsync`). -/
def availableOrders (st : CoordinatorState) (coordinatorOrders : List Order) :
    List Order :=
  coordinatorOrders.filter (fun o => !(decide (getOrderHashHex o ∈ st.softCancels)))

/-- `Handlers._validateOrdersAsync`: returns the refused order hashes.
Soft-cancelled orders are refused outright; the remaining
(non-soft-cancelled) orders are walked by index `i`, each paired with
`takerAssetFillAmounts[i]` (the source indexes the unfiltered amounts array by
the position in the filtered order list): a zero amount is refused as
redundant before the ledger check, otherwise the previously requested amount
for `(orderHash, signerAddress)` plus the current amount must not exceed
`takerAssetAmount`; finally an order whose `expirationTimeSeconds` is strictly
below the half-even-rounded current time in seconds is refused as expired.
The result is the concatenation soft-cancelled ++ ledger-exceeded ++ expired
++ redundant; the function never throws. -/
def validateOrders (st : CoordinatorState) (tx : ZeroExTransaction)
    (coordinatorOrders : List Order) (takerAssetFillAmounts : List Nat)
    (nowMs : Nat) : List Order :=
  let softCancelled := softCancelledOrderHashes st coordinatorOrders
  let available := coordinatorOrders.filter
    (fun o => !(decide (getOrderHashHex o ∈ softCancelled)))
  let takerAddress := tx.signerAddress
  let pairs := available.zip takerAssetFillAmounts
  let redundantOrders :=
    (pairs.filter (fun p => p.2 == 0)).map (fun p => getOrderHashHex p.1)
  let insufficientOrders :=
    (pairs.filter (fun p =>
        p.2 != 0 &&
        decide (p.1.takerAssetAmount <
          ledgerLookup st.fillLedger (getOrderHashHex p.1) takerAddress + p.2))).map
      (fun p => getOrderHashHex p.1)
  let currentTime := halfEvenSeconds nowMs
  let expiredOrders :=
    (available.filter (fun o => decide (o.expirationTimeSeconds < currentTime))).map
      getOrderHashHex
  softCancelled ++ insufficientOrders ++ expiredOrders ++ redundantOrders

/-- JavaScript `Set` insertion-order deduplication
(`feeRecipientAddressSet` of `_generateApprovalSignatureAsync`). -/
def insertionDedup (l : List Nat) : List Nat :=
  l.foldl (fun acc a => if decide (a ∈ acc) then acc else acc ++ [a]) []

/-- One signing step per distinct fee recipient: the source reads
`CHAIN_ID_TO_SETTINGS[chainId].FEE_RECIPIENTS[0]` on every iteration (the
per-address lookup is commented out) and throws when that entry is absent. -/
def signPerRecipient (cfg : Configs) (digest : ApprovalDigest) :
    List Nat → Except HttpError (List ApprovalSig)
  | [] => .ok []
  | _ :: rest =>
    match cfg.feeRecipients.head? with
    | none => .error ⟨500, .InternalError⟩
    | some feeRecipient =>
      (signPerRecipient cfg digest rest).map
        (fun sigs => ⟨digest, feeRecipient.2⟩ :: sigs)

/-- The `RequestTransactionResponse` assembled by
`_generateApprovalSignatureAsync`. -/
structure RequestTransactionResponse where
  approvalHash : ApprovalDigest
  signatures : List ApprovalSig
  expirationTimeSeconds : Nat
  zeroxOrderHashes : List Order
deriving DecidableEq

/-- `Handlers._generateApprovalSignatureAsync`: hash the given orders, build
the EIP-712 `CoordinatorApproval` digest over `(zeroxOrderHashes, txOrigin,
approvalExpirationTimeSeconds)` under the chain/coordinator domain, and issue
one signature per distinct `feeRecipientAddress` among the orders. -/
def generateApprovalSignature (cfg : Configs) (txOrigin : Nat)
    (coordinatorOrders : List Order) (approvalExpirationTimeSeconds : Nat) :
    Except HttpError RequestTransactionResponse :=
  let zeroxOrderHashes := coordinatorOrders.map getOrderHashHex
  let digest : ApprovalDigest :=
    ⟨zeroxOrderHashes, txOrigin, approvalExpirationTimeSeconds, cfg.chainId,
      cfg.coordinatorContractAddress⟩
  let feeRecipientAddressesUsed :=
    insertionDedup (coordinatorOrders.map Order.feeRecipientAddress)
  match signPerRecipient cfg digest feeRecipientAddressesUsed with
  | .error e => .error e
  | .ok sigs =>
    .ok ⟨digest, sigs, approvalExpirationTimeSeconds, zeroxOrderHashes⟩

/-- The 200-response body of the fill path. -/
structure FillResponseBody where
  approvalHash : ApprovalDigest
  approvedOrderHashes : List Order
  ordersRefusedApproval : List Order
  signatures : List ApprovalSig
  expirationTimeSeconds : Nat
deriving DecidableEq

/-- `ordersRefusedApproval` of `_handleFillsAsync`: the pre-delay refusals,
concatenated with the post-delay re-validation refusals (at the post-delay
clock `now2Ms`) when `SELECTIVE_DELAY_MS` is nonzero. -/
def refusedOrders (cfg : Configs) (st : CoordinatorState)
    (coordinatorOrders : List Order) (takerAssetFillAmounts : List Nat)
    (tx : ZeroExTransaction) (now1Ms now2Ms : Nat) : List Order :=
  let refused1 := validateOrders st tx coordinatorOrders takerAssetFillAmounts now1Ms
  if cfg.selectiveDelayMs ≠ 0 then
    refused1 ++ validateOrders st tx coordinatorOrders takerAssetFillAmounts now2Ms
  else refused1

/-- `prunedCoordinatorOrders` of `_handleFillsAsync`: the orders whose hash is
not in the concatenated refusal list. -/
def prunedOrders (cfg : Configs) (st : CoordinatorState)
    (coordinatorOrders : List Order) (takerAssetFillAmounts : List Nat)
    (tx : ZeroExTransaction) (now1Ms now2Ms : Nat) : List Order :=
  coordinatorOrders.filter
    (fun o => !(decide (getOrderHashHex o ∈
      refusedOrders cfg st coordinatorOrders takerAssetFillAmounts tx now1Ms now2Ms)))

/-- `Handlers._handleFillsAsync`. Sequential model of one request: validate,
wait the selective delay (re-validating when the delay is nonzero), prune the
refused orders, enforce the transaction-expiration bound against
`nowSec + EXPIRATION_DURATION_SECONDS`, sign the pruned set, and persist the
`SeenTransactions` row — the source passes the pruned orders but the unpruned
`takerAssetFillAmounts` to `transactionModel.createAsync`. A thrown
`ValidationError` leaves the repository state unchanged (no write precedes the
throw). -/
def handleFills (cfg : Configs) (st : CoordinatorState)
    (coordinatorOrders : List Order) (txOrigin : Nat) (tx : ZeroExTransaction)
    (takerAssetFillAmounts : List Nat) (now1Ms now2Ms nowSec : Nat) :
    CoordinatorState × Except HttpError FillResponseBody :=
  let ordersRefusedApproval :=
    refusedOrders cfg st coordinatorOrders takerAssetFillAmounts tx now1Ms now2Ms
  let prunedCoordinatorOrders :=
    prunedOrders cfg st coordinatorOrders takerAssetFillAmounts tx now1Ms now2Ms
  let approvalExpirationTimeSeconds := nowSec + cfg.expirationDurationSeconds
  if approvalExpirationTimeSeconds < tx.expirationTimeSeconds then
    (st, .error ⟨400, .TransactionExpirationTooHigh⟩)
  else
    match generateApprovalSignature cfg txOrigin prunedCoordinatorOrders
        approvalExpirationTimeSeconds with
    | .error e => (st, .error e)
    | .ok resp =>
      let st' := createAsync st tx
        ⟨txOrigin, resp.signatures, resp.expirationTimeSeconds, tx.signerAddress,
          prunedCoordinatorOrders, takerAssetFillAmounts⟩
      (st', .ok ⟨resp.approvalHash, resp.zeroxOrderHashes, ordersRefusedApproval,
        resp.signatures, resp.expirationTimeSeconds⟩)

/-- The fill branch of `Handlers.postRequestTransactionAsync` after decoding:
the decoded orders all proceed (the fee-recipient filter is commented out in
the source); an empty order list fails with `NoCoordinatorOrdersIncluded`; a
transaction hash already present in `SeenTransactions` fails with
`TransactionAlreadyUsed`; otherwise the fill handler runs. -/
def postFillRequest (cfg : Configs) (st : CoordinatorState)
    (coordinatorOrders : List Order) (takerAssetFillAmounts : List Nat)
    (tx : ZeroExTransaction) (txOrigin : Nat) (now1Ms now2Ms nowSec : Nat) :
    CoordinatorState × Except HttpError FillResponseBody :=
  if coordinatorOrders.isEmpty then
    (st, .error ⟨400, .NoCoordinatorOrdersIncluded⟩)
  else
    match findTx st.seenTxs (getTransactionHashHex tx) with
    | some _ => (st, .error ⟨400, .TransactionAlreadyUsed⟩)
    | none =>
      handleFills cfg st coordinatorOrders txOrigin tx takerAssetFillAmounts
        now1Ms now2Ms nowSec

/-- The 200-response body of the cancellation path. -/
structure CancelResponseBody where
  outstandingFillSignatures : List ApprovalSig
  zeroxOrderHashes : List Order
deriving DecidableEq

/-- `Handlers._handleCancelsAsync`: first checks every order's `makerAddress`
against the transaction's `signerAddress` (throwing `OnlyMakerCanCancelOrders`
before any mutation if one differs), then soft-cancels every order, and
returns the outstanding fill signatures touching the cancelled orders. -/
def handleCancels (st : CoordinatorState) (coordinatorOrders : List Order)
    (tx : ZeroExTransaction) :
    CoordinatorState × Except HttpError CancelResponseBody :=
  if coordinatorOrders.any (fun o => decide (tx.signerAddress ≠ o.makerAddress)) then
    (st, .error ⟨400, .OnlyMakerCanCancelOrders⟩)
  else
    let zeroxOrderHashes := coordinatorOrders.map getOrderHashHex
    let st' := coordinatorOrders.foldl cancelAsync st
    (st', .ok ⟨getOutstandingFillSignatures st' coordinatorOrders, zeroxOrderHashes⟩)

/-! ### Definitions stated from the spec's words (for refutation / refinement) -/

/-- The refused set as the validator-partition claim words it: soft-cancelled
orders; among the non-soft-cancelled orders, those whose own `fillAmount` is 0
(redundant) and those whose previously requested amount plus their own
`fillAmount` exceeds `takerAssetAmount` (ledger-exceeded); and orders expired
against `floor(now in seconds)`. Each order is paired with its own fill
amount. -/
def claimedRefusedSet (st : CoordinatorState) (tx : ZeroExTransaction)
    (coordinatorOrders : List Order) (takerAssetFillAmounts : List Nat)
    (nowMs : Nat) : List Order :=
  let softCancelled := softCancelledOrderHashes st coordinatorOrders
  let pairs := (coordinatorOrders.zip takerAssetFillAmounts).filter
    (fun p => !(decide (getOrderHashHex p.1 ∈ softCancelled)))
  let redundantOrders :=
    (pairs.filter (fun p => p.2 == 0)).map (fun p => getOrderHashHex p.1)
  let insufficientOrders :=
    (pairs.filter (fun p =>
        p.2 != 0 &&
        decide (p.1.takerAssetAmount <
          ledgerLookup st.fillLedger (getOrderHashHex p.1) tx.signerAddress + p.2))).map
      (fun p => getOrderHashHex p.1)
  let expiredOrders :=
    (coordinatorOrders.filter
        (fun o => decide (o.expirationTimeSeconds < nowMs / 1000))).map
      getOrderHashHex
  softCancelled ++ insufficientOrders ++ expiredOrders ++ redundantOrders

/-- The candidate list of the fillable-amount claim, as the spec words it
(spec §4.3, candidates 1–5 with their inclusion conditions). -/
def specFillableCandidates (o : Order) (oi : OrderInfo) (ti : TraderInfo) :
    List Int :=
  (if o.takerAddress ≠ 0 then [((min ti.takerBalance ti.takerAllowance : Nat) : Int)]
   else [])
  ++ [getTakerFillAmount o ((min ti.makerBalance ti.makerAllowance : Nat) : Int)]
  ++ (if o.takerFee ≠ 0 then
        [((min ti.takerFeeBalance ti.takerFeeAllowance : Nat) : Int) *
            (o.takerAssetAmount : Int) / (o.takerFee : Int)]
      else [])
  ++ (if o.makerFee ≠ 0 then
        [((min ti.makerFeeBalance ti.makerFeeAllowance : Nat) : Int) *
            (o.takerAssetAmount : Int) / (o.makerFee : Int)]
      else [])
  ++ [(o.takerAssetAmount : Int) - (oi.orderTakerAssetFilledAmount : Int)]

/-- The address-to-key association the configuration records
(`FEE_RECIPIENTS`: `{ADDRESS, PRIVATE_KEY}` pairs). -/
def configuredKeyFor (cfg : Configs) (addr : Nat) : Option Nat :=
  (cfg.feeRecipients.find? (fun f => f.1 == addr)).map (fun f => f.2)

/-! ### Concrete fixtures -/

/-- The empty repository state. -/
def emptyState : CoordinatorState := ⟨[], [], []⟩

/-- A plain order template: maker `3`, open taker, fee recipient `1`,
100/100 assets, no fees, far-future expiry. -/
def baseOrder : Order := ⟨3, 0, 1, 100, 100, 0, 0, 1000000000, 0⟩

/-- The number of `SeenTransactions` rows stored for a transaction hash. -/
def countTx (l : List (ZeroExTransaction × TransactionRecord))
    (k : ZeroExTransaction) : Nat :=
  (l.filter (fun p => decide (p.1 = k))).length

/-- A single-key configuration: fee recipient address `1` with private key
`10`, no selective delay, one-thousand-second approval lifetime. -/
def cfgOneKey : Configs := ⟨0, 1000, [(1, 10)], 99, 42⟩

/-- A two-key configuration: recipient `1` holds key `10`, recipient `2`
holds key `20`. -/
def cfgTwoKeys : Configs := ⟨0, 1000, [(1, 10), (2, 20)], 99, 42⟩

/-! ### Lemmas about the market-sell derivation -/

lemma deriveMarketSellFills_cons (total cap : Int) (caps : List Int) :
    deriveMarketSellFills total (cap :: caps) =
      min total cap :: deriveMarketSellFills (total - min total cap) caps := by
  have hmin : (if total < cap then total else cap) = min total cap := by
    rcases lt_or_ge total cap with h | h
    · rw [if_pos h, min_eq_left h.le]
    · rw [if_neg (not_lt.mpr h), min_eq_right h]
  simp only [deriveMarketSellFills, hmin]

lemma deriveMarketSellFills_sum_le (caps : List Int) :
    ∀ total : Int, 0 ≤ total → (deriveMarketSellFills total caps).sum ≤ total := by
  induction caps with
  | nil => intro total h; simpa [deriveMarketSellFills] using h
  | cons cap rest ih =>
    intro total h
    rw [deriveMarketSellFills_cons, List.sum_cons]
    have hrest := ih (total - min total cap) (by simp [min_le_left total cap])
    linarith

lemma deriveMarketSellFills_sum_eq_iff (caps : List Int) :
    ∀ total : Int, 0 ≤ total → (∀ c ∈ caps, 0 ≤ c) →
      ((deriveMarketSellFills total caps).sum = total ↔ total ≤ caps.sum) := by
  induction caps with
  | nil =>
    intro total htotal _
    simp only [deriveMarketSellFills, List.sum_nil]
    omega
  | cons cap rest ih =>
    intro total htotal hcaps
    have hcap : 0 ≤ cap := hcaps cap (by simp)
    have hrest : ∀ c ∈ rest, 0 ≤ c := fun c hc => hcaps c (by simp [hc])
    have hrestsum : 0 ≤ rest.sum := List.sum_nonneg hrest
    rw [deriveMarketSellFills_cons, List.sum_cons, List.sum_cons]
    rcases lt_or_ge total cap with h | h
    · rw [min_eq_left h.le]
      have h0 := ih 0 le_rfl hrest
      have hle := deriveMarketSellFills_sum_le rest 0 le_rfl
      simp only [sub_self] at *
      constructor
      · intro _; linarith
      · intro _
        have : (deriveMarketSellFills 0 rest).sum = 0 := le_antisymm hle (by
          have := (h0.mpr hrestsum); omega)
        linarith
    · rw [min_eq_right h]
      have := ih (total - cap) (by linarith) hrest
      constructor
      · intro hs
        have : (deriveMarketSellFills (total - cap) rest).sum = total - cap := by linarith
        have := (ih (total - cap) (by linarith) hrest).mp this
        linarith
      · intro hs
        have : total - cap ≤ rest.sum := by linarith
        have := (ih (total - cap) (by linarith) hrest).mpr this
        linarith

/-- C6 — Market-sell derivation: each step fills `min(remaining total, cap)`
and decreases the remaining total by the fill; the fills sum to at most the
input total, with equality exactly when the caps sum to at least the input
total. -/
theorem marketSell_fill_amounts (total : Int) (caps : List Int)
    (htotal : 0 ≤ total) (hcaps : ∀ c ∈ caps, 0 ≤ c) :
    (∀ cap rest, deriveMarketSellFills total (cap :: rest) =
        min total cap :: deriveMarketSellFills (total - min total cap) rest) ∧
    (deriveMarketSellFills total caps).sum ≤ total ∧
    ((deriveMarketSellFills total caps).sum = total ↔ total ≤ caps.sum) :=
  ⟨fun cap rest => deriveMarketSellFills_cons total cap rest,
   deriveMarketSellFills_sum_le caps total htotal,
   deriveMarketSellFills_sum_eq_iff caps total htotal hcaps⟩

/-- C6 witness: the derivation over total `5` and caps `[3, 2]`. -/
theorem marketSell_fill_amounts_witness :
    (deriveMarketSellFills 5 [3, 2]).sum ≤ 5 ∧
    ((deriveMarketSellFills 5 [3, 2]).sum = 5 ↔ (5 : Int) ≤ ([3, 2] : List Int).sum) :=
  ⟨(marketSell_fill_amounts 5 [3, 2] (by decide) (by decide)).2.1,
   (marketSell_fill_amounts 5 [3, 2] (by decide) (by decide)).2.2⟩

/-! ### Lemmas about the fillable-amount calculator -/

lemma foldl_min_le_init (xs : List Int) : ∀ a : Int, xs.foldl min a ≤ a := by
  induction xs with
  | nil => intro a; simp
  | cons y ys ih =>
    intro a
    calc ys.foldl min (min a y) ≤ min a y := ih (min a y)
    _ ≤ a := min_le_left a y

lemma foldl_min_le_mem (xs : List Int) :
    ∀ a : Int, ∀ x ∈ xs, xs.foldl min a ≤ x := by
  induction xs with
  | nil => intro a x hx; cases hx
  | cons y ys ih =>
    intro a x hx
    rcases List.mem_cons.mp hx with rfl | hx'
    · calc ys.foldl min (min a x) ≤ min a x := foldl_min_le_init ys (min a x)
      _ ≤ x := min_le_right a x
    · exact ih (min a y) x hx'

lemma foldl_min_mem_or (xs : List Int) :
    ∀ a : Int, xs.foldl min a = a ∨ xs.foldl min a ∈ xs := by
  induction xs with
  | nil => intro a; left; rfl
  | cons y ys ih =>
    intro a
    rcases ih (min a y) with h | h
    · rcases min_choice a y with hm | hm
      · left; simp only [List.foldl_cons]; rw [h, hm]
      · right; simp only [List.foldl_cons]; rw [h, hm]; exact List.mem_cons_self y ys
    · right; exact List.mem_cons_of_mem y h

lemma bigMin_le (l : List Int) : ∀ x ∈ l, bigMin l ≤ x := by
  cases l with
  | nil => intro x hx; cases hx
  | cons y ys =>
    intro x hx
    rcases List.mem_cons.mp hx with rfl | hx'
    · exact foldl_min_le_init ys x
    · exact foldl_min_le_mem ys y x hx'

lemma bigMin_mem (l : List Int) (h : l ≠ []) : bigMin l ∈ l := by
  cases l with
  | nil => exact absurd rfl h
  | cons y ys =>
    rcases foldl_min_mem_or ys y with h' | h'
    · rw [bigMin, h']; exact List.mem_cons_self y ys
    · exact List.mem_cons_of_mem y h'

lemma specFillableCandidates_ne_nil (o : Order) (oi : OrderInfo) (ti : TraderInfo) :
    specFillableCandidates o oi ti ≠ [] := by
  simp [specFillableCandidates]

lemma specFillableCandidates_nonneg (o : Order) (oi : OrderInfo) (ti : TraderInfo)
    (hfill : oi.orderTakerAssetFilledAmount ≤ o.takerAssetAmount) :
    ∀ c ∈ specFillableCandidates o oi ti, 0 ≤ c := by
  intro c hc
  simp only [specFillableCandidates, List.append_assoc, List.mem_append,
    List.mem_singleton] at hc
  rcases hc with h | h | h | h | h
  · split at h
    · rcases List.mem_singleton.mp h with rfl; positivity
    · cases h
  · subst h
    unfold getTakerFillAmount
    positivity
  · split at h
    · rcases List.mem_singleton.mp h with rfl; positivity
    · cases h
  · split at h
    · rcases List.mem_singleton.mp h with rfl; positivity
    · cases h
  · subst h; omega

/-- C7 (amended) — Fillable-amount calculator: the result is the minimum of
the spec's candidate list (it belongs to the list and bounds every entry),
and it is nonnegative provided the on-chain filled amount does not exceed
`takerAssetAmount`. -/
theorem fillable_amount_min (o : Order) (oi : OrderInfo) (ti : TraderInfo) :
    calculateRemainingFillableTakerAssetAmount o oi ti ∈ specFillableCandidates o oi ti ∧
    (∀ c ∈ specFillableCandidates o oi ti,
      calculateRemainingFillableTakerAssetAmount o oi ti ≤ c) ∧
    (oi.orderTakerAssetFilledAmount ≤ o.takerAssetAmount →
      0 ≤ calculateRemainingFillableTakerAssetAmount o oi ti) := by
  have hdef : calculateRemainingFillableTakerAssetAmount o oi ti =
      bigMin (specFillableCandidates o oi ti) := rfl
  refine ⟨?_, ?_, ?_⟩
  · rw [hdef]; exact bigMin_mem _ (specFillableCandidates_ne_nil o oi ti)
  · intro c hc; rw [hdef]; exact bigMin_le _ c hc
  · intro hfill
    have hmem : calculateRemainingFillableTakerAssetAmount o oi ti ∈
        specFillableCandidates o oi ti := by
      rw [hdef]; exact bigMin_mem _ (specFillableCandidates_ne_nil o oi ti)
    exact specFillableCandidates_nonneg o oi ti hfill _ hmem

/-- C7 counterexample: the claim's unconditional `result ≥ 0` fails — with a
starved maker and an oracle snapshot whose filled amount (10) exceeds
`takerAssetAmount` (5), the calculator returns `-5`. -/
theorem fillable_amount_negative :
    calculateRemainingFillableTakerAssetAmount
        { baseOrder with makerAssetAmount := 1, takerAssetAmount := 5, salt := 7 }
        ⟨10⟩ ⟨0, 0, 0, 0, 0, 0, 0, 0⟩ = -5 ∧
    ¬ (0 : Int) ≤ calculateRemainingFillableTakerAssetAmount
        { baseOrder with makerAssetAmount := 1, takerAssetAmount := 5, salt := 7 }
        ⟨10⟩ ⟨0, 0, 0, 0, 0, 0, 0, 0⟩ := by
  constructor <;> decide

/-- C7 witness: the amended theorem applied to the base order with a fresh
oracle snapshot (filled amount 0 ≤ 100). -/
theorem fillable_amount_min_witness :
    calculateRemainingFillableTakerAssetAmount baseOrder ⟨0⟩ ⟨0, 0, 0, 0, 0, 0, 0, 0⟩ ∈
      specFillableCandidates baseOrder ⟨0⟩ ⟨0, 0, 0, 0, 0, 0, 0, 0⟩ ∧
    0 ≤ calculateRemainingFillableTakerAssetAmount baseOrder ⟨0⟩ ⟨0, 0, 0, 0, 0, 0, 0, 0⟩ :=
  ⟨(fillable_amount_min baseOrder ⟨0⟩ ⟨0, 0, 0, 0, 0, 0, 0, 0⟩).1,
   (fillable_amount_min baseOrder ⟨0⟩ ⟨0, 0, 0, 0, 0, 0, 0, 0⟩).2.2 (by decide)⟩

/-! ### Lemmas about the validator -/

lemma mem_softCancelledOrderHashes (st : CoordinatorState) (orders : List Order)
    (h : Order) :
    h ∈ softCancelledOrderHashes st orders ↔ h ∈ orders ∧ h ∈ st.softCancels := by
  simp [softCancelledOrderHashes, getOrderHashHex, List.mem_filter]

lemma available_filter_eq (st : CoordinatorState) (orders : List Order) :
    orders.filter
      (fun o => !(decide (getOrderHashHex o ∈ softCancelledOrderHashes st orders))) =
    availableOrders st orders := by
  unfold availableOrders
  apply List.filter_congr
  intro o ho
  have : (getOrderHashHex o ∈ softCancelledOrderHashes st orders) ↔
      (getOrderHashHex o ∈ st.softCancels) := by
    rw [mem_softCancelledOrderHashes]
    exact ⟨fun h => h.2, fun h => ⟨ho, h⟩⟩
  simp [this]

lemma validateOrders_eq (st : CoordinatorState) (tx : ZeroExTransaction)
    (orders : List Order) (amounts : List Nat) (nowMs : Nat) :
    validateOrders st tx orders amounts nowMs =
      softCancelledOrderHashes st orders
      ++ (((availableOrders st orders).zip amounts).filter (fun p =>
            p.2 != 0 &&
            decide (p.1.takerAssetAmount <
              ledgerLookup st.fillLedger (getOrderHashHex p.1) tx.signerAddress + p.2))).map
          (fun p => getOrderHashHex p.1)
      ++ ((availableOrders st orders).filter
            (fun o => decide (o.expirationTimeSeconds < halfEvenSeconds nowMs))).map
          getOrderHashHex
      ++ (((availableOrders st orders).zip amounts).filter (fun p => p.2 == 0)).map
          (fun p => getOrderHashHex p.1) := by
  simp only [validateOrders]
  rw [available_filter_eq]

/-- C4 (amended) — Validator partition: an order hash is refused exactly when
its order is soft-cancelled; or, pairing the `i`-th non-soft-cancelled order
with `takerAssetFillAmounts[i]` (the source consumes the fill amounts
positionally against the filtered list, not matched to their own orders), the
paired amount is nonzero and the previously requested amount plus that paired
amount exceeds `takerAssetAmount` (ledger-exceeded), or the paired amount is
zero (redundant); or the non-soft-cancelled order's `expirationTimeSeconds`
is below the current time in seconds rounded half-to-even (expired). The
validator is a total function — it partitions and never throws. -/
theorem validator_partition (st : CoordinatorState) (tx : ZeroExTransaction)
    (orders : List Order) (amounts : List Nat) (nowMs : Nat) (h : Order) :
    h ∈ validateOrders st tx orders amounts nowMs ↔
      (h ∈ orders ∧ h ∈ st.softCancels) ∨
      (∃ p ∈ (availableOrders st orders).zip amounts,
        p.1 = h ∧ p.2 ≠ 0 ∧
        p.1.takerAssetAmount < ledgerLookup st.fillLedger p.1 tx.signerAddress + p.2) ∨
      (h ∈ availableOrders st orders ∧ h.expirationTimeSeconds < halfEvenSeconds nowMs) ∨
      (∃ p ∈ (availableOrders st orders).zip amounts, p.1 = h ∧ p.2 = 0) := by
  rw [validateOrders_eq]
  simp only [List.mem_append, mem_softCancelledOrderHashes, List.mem_map,
    List.mem_filter, getOrderHashHex, Bool.and_eq_true, bne_iff_ne, ne_eq,
    beq_iff_eq, decide_eq_true_eq]
  constructor
  · rintro (((hsc | ⟨p, ⟨hp, hne, hlt⟩, hp1⟩) | ⟨o, ⟨ho, hexp⟩, ho1⟩) |
      ⟨p, ⟨hp, hz⟩, hp1⟩)
    · exact Or.inl hsc
    · exact Or.inr (Or.inl ⟨p, hp, hp1, hne, hlt⟩)
    · exact Or.inr (Or.inr (Or.inl ⟨ho1 ▸ ho, ho1 ▸ hexp⟩))
    · exact Or.inr (Or.inr (Or.inr ⟨p, hp, hp1, hz⟩))
  · rintro (hsc | ⟨p, hp, hp1, hne, hlt⟩ | ⟨ho, hexp⟩ | ⟨p, hp, hp1, hz⟩)
    · exact Or.inl (Or.inl (Or.inl hsc))
    · exact Or.inl (Or.inl (Or.inr ⟨p, ⟨hp, hne, hlt⟩, hp1⟩))
    · exact Or.inl (Or.inr ⟨h, ⟨ho, hexp⟩, rfl⟩)
    · exact Or.inr ⟨p, ⟨hp, hz⟩, hp1⟩

/-- C4 counterexample: the claim as stated (each order judged against its own
fill amount) fails. With orders `[s, l]`, amounts `[0, 5]`, and `s`
soft-cancelled, the source pairs `l` (the only non-soft-cancelled order) with
amount `0` and refuses it as redundant, while the claim assigns `l` its own
amount `5` and approves it: `l` is refused by the code but is not in the
claim's refused set. -/
theorem validator_partition_counterexample :
    getOrderHashHex { baseOrder with salt := 4 } ∈
      validateOrders ⟨[{ baseOrder with salt := 3 }], [], []⟩ ⟨7, 0, 12⟩
        [{ baseOrder with salt := 3 }, { baseOrder with salt := 4 }] [0, 5] 0 ∧
    getOrderHashHex { baseOrder with salt := 4 } ∉
      claimedRefusedSet ⟨[{ baseOrder with salt := 3 }], [], []⟩ ⟨7, 0, 12⟩
        [{ baseOrder with salt := 3 }, { baseOrder with salt := 4 }] [0, 5] 0 := by
  constructor <;> decide

/-! ### Lemmas about the fill and cancel request machines -/

lemma findTx_none_countTx :
    ∀ (l : List (ZeroExTransaction × TransactionRecord)) (k : ZeroExTransaction),
      findTx l k = none → countTx l k = 0 := by
  intro l k
  induction l with
  | nil => intro _; rfl
  | cons p rest ih =>
    rcases p with ⟨h, r⟩
    intro hfind
    rw [findTx] at hfind
    split at hfind
    · exact absurd hfind (by simp)
    · rename_i hne
      simp only [countTx, List.filter_cons]
      rw [if_neg (by simpa using hne)]
      exact ih hfind

lemma generateApprovalSignature_exp (cfg : Configs) (txOrigin : Nat)
    (orders : List Order) (exp : Nat) (resp : RequestTransactionResponse)
    (h : generateApprovalSignature cfg txOrigin orders exp = .ok resp) :
    resp.expirationTimeSeconds = exp := by
  simp only [generateApprovalSignature] at h
  split at h
  · exact absurd h (by simp)
  · rename_i sigs hsig
    rw [Except.ok.injEq] at h
    rw [← h]

lemma handleFills_ok_decomp (cfg : Configs) (st : CoordinatorState)
    (orders : List Order) (txOrigin : Nat) (tx : ZeroExTransaction)
    (amounts : List Nat) (t1 t2 ts : Nat)
    (hok : ((handleFills cfg st orders txOrigin tx amounts t1 t2 ts).2).toOption.isSome
      = true) :
    ∃ resp,
      generateApprovalSignature cfg txOrigin (prunedOrders cfg st orders amounts tx t1 t2)
          (ts + cfg.expirationDurationSeconds) = .ok resp ∧
      handleFills cfg st orders txOrigin tx amounts t1 t2 ts =
        (createAsync st tx
          ⟨txOrigin, resp.signatures, resp.expirationTimeSeconds, tx.signerAddress,
            prunedOrders cfg st orders amounts tx t1 t2, amounts⟩,
         .ok ⟨resp.approvalHash, resp.zeroxOrderHashes,
            refusedOrders cfg st orders amounts tx t1 t2, resp.signatures,
            resp.expirationTimeSeconds⟩) ∧
      tx.expirationTimeSeconds ≤ ts + cfg.expirationDurationSeconds := by
  simp only [handleFills] at hok
  by_cases hexp : ts + cfg.expirationDurationSeconds < tx.expirationTimeSeconds
  · rw [if_pos hexp] at hok; simp [Except.toOption] at hok
  · rw [if_neg hexp] at hok
    cases hgen : generateApprovalSignature cfg txOrigin
        (prunedOrders cfg st orders amounts tx t1 t2)
        (ts + cfg.expirationDurationSeconds) with
    | error e => rw [hgen] at hok; simp [Except.toOption] at hok
    | ok resp =>
      refine ⟨resp, rfl, ?_, not_lt.mp hexp⟩
      simp only [handleFills]
      rw [if_neg hexp, hgen]

lemma postFillRequest_ok_decomp (cfg : Configs) (st : CoordinatorState)
    (orders : List Order) (amounts : List Nat) (tx : ZeroExTransaction)
    (txOrigin t1 t2 ts : Nat)
    (hok : ((postFillRequest cfg st orders amounts tx txOrigin t1 t2 ts).2).toOption.isSome
      = true) :
    orders.isEmpty = false ∧
    findTx st.seenTxs (getTransactionHashHex tx) = none ∧
    postFillRequest cfg st orders amounts tx txOrigin t1 t2 ts =
      handleFills cfg st orders txOrigin tx amounts t1 t2 ts := by
  simp only [postFillRequest] at hok ⊢
  by_cases hemp : orders.isEmpty = true
  · rw [if_pos hemp] at hok; simp [Except.toOption] at hok
  · rw [if_neg hemp] at hok ⊢
    cases hfind : findTx st.seenTxs (getTransactionHashHex tx) with
    | some r => rw [hfind] at hok; simp [Except.toOption] at hok
    | none =>
      exact ⟨by simpa using hemp, rfl, rfl⟩

/-- C2 — Replay safety: when a fill request succeeds, exactly one
`SeenTransactions` row exists for its transaction hash, and resubmitting the
same signed meta-transaction (same decoded orders and amounts, any
`txOrigin` and clock) fails with `TransactionAlreadyUsed` (HTTP 400),
leaving the state — and hence the first row — untouched. -/
theorem replay_rejected (cfg : Configs) (st : CoordinatorState)
    (orders : List Order) (amounts : List Nat) (tx : ZeroExTransaction)
    (txOrigin t1 t2 ts : Nat)
    (hok : ((postFillRequest cfg st orders amounts tx txOrigin t1 t2 ts).2).toOption.isSome
      = true) :
    countTx (postFillRequest cfg st orders amounts tx txOrigin t1 t2 ts).1.seenTxs
        (getTransactionHashHex tx) = 1 ∧
    ∀ txOrigin2 t1' t2' ts',
      postFillRequest cfg (postFillRequest cfg st orders amounts tx txOrigin t1 t2 ts).1
          orders amounts tx txOrigin2 t1' t2' ts' =
        ((postFillRequest cfg st orders amounts tx txOrigin t1 t2 ts).1,
          .error ⟨400, .TransactionAlreadyUsed⟩) := by
  obtain ⟨hemp, hfind, heq⟩ :=
    postFillRequest_ok_decomp cfg st orders amounts tx txOrigin t1 t2 ts hok
  rw [heq] at hok ⊢
  obtain ⟨resp, hgen, heq2, hbound⟩ :=
    handleFills_ok_decomp cfg st orders txOrigin tx amounts t1 t2 ts hok
  rw [heq2]
  have h0 : countTx st.seenTxs (getTransactionHashHex tx) = 0 :=
    findTx_none_countTx st.seenTxs (getTransactionHashHex tx) hfind
  constructor
  · simp only [createAsync, countTx, List.filter_cons] at h0 ⊢
    rw [if_pos (by simp)]
    simp [h0]
  · intro txOrigin2 t1' t2' ts'
    simp only [postFillRequest]
    rw [if_neg (by simp [hemp])]
    simp [createAsync, findTx]

/-- C3 — Expiration bound: the approval expiration is computed as
`now + EXPIRATION_DURATION_SECONDS`; a meta-transaction whose
`expirationTimeSeconds` exceeds it fails with `TransactionExpirationTooHigh`
(HTTP 400) before any approval is issued, so every issued approval's
expiration equals that bound and dominates the meta-transaction's. -/
theorem expiration_bound (cfg : Configs) (st : CoordinatorState)
    (orders : List Order) (amounts : List Nat) (tx : ZeroExTransaction)
    (txOrigin t1 t2 ts : Nat) :
    (ts + cfg.expirationDurationSeconds < tx.expirationTimeSeconds →
      handleFills cfg st orders txOrigin tx amounts t1 t2 ts =
        (st, .error ⟨400, .TransactionExpirationTooHigh⟩)) ∧
    (((handleFills cfg st orders txOrigin tx amounts t1 t2 ts).2).toOption.isSome = true →
      ((handleFills cfg st orders txOrigin tx amounts t1 t2 ts).2).toOption.map
          FillResponseBody.expirationTimeSeconds =
        some (ts + cfg.expirationDurationSeconds) ∧
      tx.expirationTimeSeconds ≤ ts + cfg.expirationDurationSeconds) := by
  constructor
  · intro hlt
    simp only [handleFills]
    rw [if_pos hlt]
  · intro hok
    obtain ⟨resp, hgen, heq2, hbound⟩ :=
      handleFills_ok_decomp cfg st orders txOrigin tx amounts t1 t2 ts hok
    refine ⟨?_, hbound⟩
    have hexp := generateApprovalSignature_exp cfg txOrigin _ _ resp hgen
    rw [heq2]
    simp [Except.toOption, hexp]

lemma foldl_cancelAsync_softCancels :
    ∀ (orders : List Order) (st : CoordinatorState),
      (orders.foldl cancelAsync st).softCancels =
        st.softCancels ++ orders.map getOrderHashHex := by
  intro orders
  induction orders with
  | nil => intro st; simp
  | cons o rest ih =>
    intro st
    simp only [List.foldl_cons, List.map_cons, ih, cancelAsync]
    simp

/-- C9 — Cancellation authorization and atomicity: if any targeted order's
maker differs from the meta-transaction's signer, the cancel handler fails
with `OnlyMakerCanCancelOrders` (HTTP 400) and returns the state unchanged
(no order soft-cancelled); if every maker matches, the request succeeds and
every targeted order is soft-cancelled. -/
theorem cancel_authorization (st : CoordinatorState) (orders : List Order)
    (tx : ZeroExTransaction) :
    ((∃ o ∈ orders, o.makerAddress ≠ tx.signerAddress) →
      handleCancels st orders tx = (st, .error ⟨400, .OnlyMakerCanCancelOrders⟩)) ∧
    ((∀ o ∈ orders, o.makerAddress = tx.signerAddress) →
      ((handleCancels st orders tx).2).toOption.isSome = true ∧
      ∀ o ∈ orders, getOrderHashHex o ∈ (handleCancels st orders tx).1.softCancels) := by
  constructor
  · rintro ⟨o, ho, hne⟩
    simp only [handleCancels]
    rw [if_pos (by rw [List.any_eq_true]; exact ⟨o, ho, by simp [Ne.symm hne]⟩)]
  · intro hall
    have hcond : ¬(orders.any
        (fun o => decide (tx.signerAddress ≠ o.makerAddress)) = true) := by
      intro hc
      rw [List.any_eq_true] at hc
      obtain ⟨o, ho, hh⟩ := hc
      simp only [decide_eq_true_eq] at hh
      exact hh (hall o ho).symm
    have h1 : handleCancels st orders tx =
        (orders.foldl cancelAsync st,
          .ok ⟨getOutstandingFillSignatures (orders.foldl cancelAsync st) orders,
            orders.map getOrderHashHex⟩) := by
      simp only [handleCancels]
      rw [if_neg hcond]
    rw [h1]
    refine ⟨by simp [Except.toOption], ?_⟩
    intro o ho
    show getOrderHashHex o ∈ (orders.foldl cancelAsync st).softCancels
    rw [foldl_cancelAsync_softCancels]
    exact List.mem_append_right _ (List.mem_map.mpr ⟨o, ho, rfl⟩)

/-- C10 — All-refused fills still burn the transaction hash: when every order
of a successful fill request was refused by the pre-delay validation, the
response approves nothing and carries no signature, yet a `SeenTransactions`
row with empty order and signature lists is stored, and resubmitting the same
meta-transaction fails with `TransactionAlreadyUsed`. -/
theorem all_refused_still_recorded (cfg : Configs) (st : CoordinatorState)
    (orders : List Order) (amounts : List Nat) (tx : ZeroExTransaction)
    (txOrigin t1 t2 ts : Nat)
    (hall : ∀ o ∈ orders, getOrderHashHex o ∈ validateOrders st tx orders amounts t1)
    (hok : ((postFillRequest cfg st orders amounts tx txOrigin t1 t2 ts).2).toOption.isSome
      = true) :
    ((postFillRequest cfg st orders amounts tx txOrigin t1 t2 ts).2).toOption.map
        (fun b => (b.approvedOrderHashes, b.signatures)) = some ([], []) ∧
    (findTx (postFillRequest cfg st orders amounts tx txOrigin t1 t2 ts).1.seenTxs
        (getTransactionHashHex tx)).map (fun r => (r.orders, r.signatures)) =
      some ([], []) ∧
    ∀ txOrigin2 t1' t2' ts',
      postFillRequest cfg (postFillRequest cfg st orders amounts tx txOrigin t1 t2 ts).1
          orders amounts tx txOrigin2 t1' t2' ts' =
        ((postFillRequest cfg st orders amounts tx txOrigin t1 t2 ts).1,
          .error ⟨400, .TransactionAlreadyUsed⟩) := by
  obtain ⟨hemp, hfind, heq⟩ :=
    postFillRequest_ok_decomp cfg st orders amounts tx txOrigin t1 t2 ts hok
  rw [heq] at hok ⊢
  obtain ⟨resp, hgen, heq2, hbound⟩ :=
    handleFills_ok_decomp cfg st orders txOrigin tx amounts t1 t2 ts hok
  have hpruned : prunedOrders cfg st orders amounts tx t1 t2 = [] := by
    simp only [prunedOrders]
    rw [List.filter_eq_nil_iff]
    intro o ho
    have h1 : getOrderHashHex o ∈ refusedOrders cfg st orders amounts tx t1 t2 := by
      simp only [refusedOrders]
      split
      · exact List.mem_append_left _ (hall o ho)
      · exact hall o ho
    simp [h1]
  rw [hpruned] at hgen heq2
  have hresp : resp =
      ⟨⟨[], txOrigin, ts + cfg.expirationDurationSeconds, cfg.chainId,
          cfg.coordinatorContractAddress⟩, [],
        ts + cfg.expirationDurationSeconds, []⟩ := by
    have : generateApprovalSignature cfg txOrigin []
        (ts + cfg.expirationDurationSeconds) =
      .ok ⟨⟨[], txOrigin, ts + cfg.expirationDurationSeconds, cfg.chainId,
          cfg.coordinatorContractAddress⟩, [],
        ts + cfg.expirationDurationSeconds, []⟩ := rfl
    rw [this] at hgen
    exact (Except.ok.inj hgen).symm
  rw [hresp] at heq2
  rw [heq2]
  refine ⟨by simp [Except.toOption], by simp [createAsync, findTx], ?_⟩
  intro txOrigin2 t1' t2' ts'
  simp only [postFillRequest]
  rw [if_neg (by simp [hemp])]
  simp [createAsync, findTx]

/-! ### Concrete evaluations: bug exhibits and witnesses -/

/-- C1 — the fill pipeline violates ledger safety. Orders `[e, l]` where `e`
is expired (and over-asks, so it is refused) and `l` is live with
`takerAssetAmount = 100`; fill amounts `[200, 50]`. The request succeeds and
approves only `l`, but persisting pairs the pruned order list `[l]` with the
unpruned amounts `[200, 50]`, crediting `200 > 100` to `l`'s ledger entry. -/
theorem ledger_exceeded_after_commit :
    ledgerLookup (postFillRequest cfgOneKey emptyState
        [{ baseOrder with expirationTimeSeconds := 0, salt := 1 },
          { baseOrder with salt := 2 }]
        [200, 50] ⟨7, 0, 11⟩ 9 10000 10000 100).1.fillLedger
      (getOrderHashHex { baseOrder with salt := 2 }) 7 = 200 ∧
    ({ baseOrder with salt := 2 } : Order).takerAssetAmount = 100 ∧
    ((postFillRequest cfgOneKey emptyState
        [{ baseOrder with expirationTimeSeconds := 0, salt := 1 },
          { baseOrder with salt := 2 }]
        [200, 50] ⟨7, 0, 11⟩ 9 10000 10000 100).2).toOption.map
      (fun b => b.approvedOrderHashes) = some [{ baseOrder with salt := 2 }] := by
  refine ⟨by decide, by decide, by decide⟩

/-- C5 — multi-recipient signing uses the first configured key for every
signature. With recipients `1 ↦ key 10` and `2 ↦ key 20` configured and a
batch over one order per recipient, two signatures are issued but both carry
key `10`, although the configuration assigns recipient `2` the key `20`. -/
theorem signing_uses_first_key_only :
    ((generateApprovalSignature cfgTwoKeys 9
        [{ baseOrder with salt := 5 },
          { baseOrder with feeRecipientAddress := 2, salt := 6 }] 500).map
      (fun r => r.signatures.map ApprovalSig.signingKey)) = .ok [10, 10] ∧
    configuredKeyFor cfgTwoKeys 2 = some 20 := by
  constructor <;> decide

/-- C8 — the coordinator-order filter is absent: an order whose
`feeRecipientAddress` (2) is not among the configured fee recipients of
`cfgOneKey` (only 1) is nevertheless validated, approved and signed. -/
theorem foreign_recipient_not_filtered :
    ((postFillRequest cfgOneKey emptyState
        [{ baseOrder with feeRecipientAddress := 2, salt := 8 }]
        [40] ⟨7, 50, 13⟩ 9 0 0 100).2).toOption.map
      (fun b => (b.approvedOrderHashes, b.signatures.map ApprovalSig.signingKey)) =
      some ([{ baseOrder with feeRecipientAddress := 2, salt := 8 }], [10]) ∧
    (2 : Nat) ∉ cfgOneKey.feeRecipients.map Prod.fst := by
  constructor <;> decide

/-- C2 witness: a concrete fill succeeds, stores one row, and its replay is
rejected with `TransactionAlreadyUsed` leaving the state unchanged. -/
theorem replay_rejected_witness :
    countTx (postFillRequest cfgOneKey emptyState [{ baseOrder with salt := 9 }]
        [40] ⟨7, 0, 21⟩ 9 0 0 100).1.seenTxs (getTransactionHashHex ⟨7, 0, 21⟩) = 1 ∧
    postFillRequest cfgOneKey
        (postFillRequest cfgOneKey emptyState [{ baseOrder with salt := 9 }]
          [40] ⟨7, 0, 21⟩ 9 0 0 100).1
        [{ baseOrder with salt := 9 }] [40] ⟨7, 0, 21⟩ 8 5 5 200 =
      ((postFillRequest cfgOneKey emptyState [{ baseOrder with salt := 9 }]
          [40] ⟨7, 0, 21⟩ 9 0 0 100).1,
        .error ⟨400, .TransactionAlreadyUsed⟩) :=
  ⟨(replay_rejected cfgOneKey emptyState [{ baseOrder with salt := 9 }] [40]
      ⟨7, 0, 21⟩ 9 0 0 100 (by decide)).1,
   (replay_rejected cfgOneKey emptyState [{ baseOrder with salt := 9 }] [40]
      ⟨7, 0, 21⟩ 9 0 0 100 (by decide)).2 8 5 5 200⟩

/-- C3 witness: a meta-transaction expiring at `2000 > 100 + 1000` is
rejected with `TransactionExpirationTooHigh`, and a successful concrete fill
carries approval expiration `100 + 1000` dominating the transaction's `0`. -/
theorem expiration_bound_witness :
    handleFills cfgOneKey emptyState [baseOrder] 9 ⟨7, 2000, 23⟩ [40] 0 0 100 =
      (emptyState, .error ⟨400, .TransactionExpirationTooHigh⟩) ∧
    (((handleFills cfgOneKey emptyState [baseOrder] 9 ⟨7, 0, 23⟩ [40] 0 0 100).2).toOption.map
        FillResponseBody.expirationTimeSeconds =
      some (100 + cfgOneKey.expirationDurationSeconds) ∧
      (⟨7, 0, 23⟩ : ZeroExTransaction).expirationTimeSeconds ≤
        100 + cfgOneKey.expirationDurationSeconds) :=
  ⟨(expiration_bound cfgOneKey emptyState [baseOrder] [40] ⟨7, 2000, 23⟩
      9 0 0 100).1 (by decide),
   (expiration_bound cfgOneKey emptyState [baseOrder] [40] ⟨7, 0, 23⟩
      9 0 0 100).2 (by decide)⟩

/-- C9 witness: a cancel signed by `4` targeting an order of maker `3` is
rejected without soft-cancelling anything, while the maker's own cancel
soft-cancels the order. -/
theorem cancel_authorization_witness :
    handleCancels emptyState [{ baseOrder with salt := 30 }] ⟨4, 0, 31⟩ =
      (emptyState, .error ⟨400, .OnlyMakerCanCancelOrders⟩) ∧
    getOrderHashHex { baseOrder with salt := 30 } ∈
      (handleCancels emptyState [{ baseOrder with salt := 30 }] ⟨3, 0, 32⟩).1.softCancels :=
  ⟨(cancel_authorization emptyState [{ baseOrder with salt := 30 }] ⟨4, 0, 31⟩).1
      ⟨{ baseOrder with salt := 30 }, by decide, by decide⟩,
   ((cancel_authorization emptyState [{ baseOrder with salt := 30 }] ⟨3, 0, 32⟩).2
      (by decide)).2 { baseOrder with salt := 30 } (by decide)⟩

/-- C10 witness: a fill over a single expired order succeeds with empty
approvals and signatures, stores an empty-order row, and its replay is
rejected. -/
theorem all_refused_still_recorded_witness :
    ((postFillRequest cfgOneKey emptyState
        [{ baseOrder with expirationTimeSeconds := 0, salt := 10 }]
        [40] ⟨7, 0, 22⟩ 9 10000 10000 100).2).toOption.map
      (fun b => (b.approvedOrderHashes, b.signatures)) = some ([], []) ∧
    (findTx (postFillRequest cfgOneKey emptyState
        [{ baseOrder with expirationTimeSeconds := 0, salt := 10 }]
        [40] ⟨7, 0, 22⟩ 9 10000 10000 100).1.seenTxs
      (getTransactionHashHex ⟨7, 0, 22⟩)).map (fun r => (r.orders, r.signatures)) =
      some ([], []) ∧
    postFillRequest cfgOneKey
        (postFillRequest cfgOneKey emptyState
          [{ baseOrder with expirationTimeSeconds := 0, salt := 10 }]
          [40] ⟨7, 0, 22⟩ 9 10000 10000 100).1
        [{ baseOrder with expirationTimeSeconds := 0, salt := 10 }]
        [40] ⟨7, 0, 22⟩ 8 5 5 200 =
      ((postFillRequest cfgOneKey emptyState
          [{ baseOrder with expirationTimeSeconds := 0, salt := 10 }]
          [40] ⟨7, 0, 22⟩ 9 10000 10000 100).1,
        .error ⟨400, .TransactionAlreadyUsed⟩) :=
  ⟨(all_refused_still_recorded cfgOneKey emptyState
      [{ baseOrder with expirationTimeSeconds := 0, salt := 10 }] [40]
      ⟨7, 0, 22⟩ 9 10000 10000 100 (by decide) (by decide)).1,
   (all_refused_still_recorded cfgOneKey emptyState
      [{ baseOrder with expirationTimeSeconds := 0, salt := 10 }] [40]
      ⟨7, 0, 22⟩ 9 10000 10000 100 (by decide) (by decide)).2.1,
   (all_refused_still_recorded cfgOneKey emptyState
      [{ baseOrder with expirationTimeSeconds := 0, salt := 10 }] [40]
      ⟨7, 0, 22⟩ 9 10000 10000 100 (by decide) (by decide)).2.2 8 5 5 200⟩

end Coordinator
